import Mathlib

/-!
Verification of the event-log recording and replay subsystem of the
eko-studio repository.

JavaScript strings are modelled as `List Char`; JS numbers that carry log
metadata are modelled as `Option Int`, where `none` plays the role of `NaN`
(the only non-integer value these code paths can produce).  Rates and delays
(speed, fixedInterval, computed sleeps) are modelled as rationals.
`JSON.stringify` / `JSON.parse` are host-runtime builtins, so the development
is parametric in a serializer `ser : α → List Char` and a deserializer
`de : List Char → Option α`; the lexical facts the log format needs from
pretty-printed JSON (non-empty, no blank line, no leading or trailing
newline) are captured by the predicate `serSafe`.
-/

/-- One decimal digit as a character, mirroring JS number-to-string output. -/
def digitChar : Nat → Char
  | 0 => '0' | 1 => '1' | 2 => '2' | 3 => '3' | 4 => '4'
  | 5 => '5' | 6 => '6' | 7 => '7' | 8 => '8' | 9 => '9'
  | _ => '0'

/-- Fuel-driven decimal printer (structural, so the kernel can evaluate it). -/
def natCharsF : Nat → Nat → List Char
  | 0, _ => []
  | fuel + 1, n =>
    if n < 10 then [digitChar n]
    else natCharsF fuel (n / 10) ++ [digitChar (n % 10)]

/-- Decimal representation of a natural number, as `String(n)` produces in JS. -/
def natChars (n : Nat) : List Char := natCharsF (n + 1) n

/-- Decimal representation of an integer, as JS template interpolation produces. -/
def intChars (z : Int) : List Char :=
  if z < 0 then '-' :: natChars z.natAbs else natChars z.toNat

/-- Numeric value of a digit character. -/
def charVal (c : Char) : Nat := c.toNat - 48

/-- Value of a decimal digit string (most significant digit first). -/
def valOfDigits (ds : List Char) : Nat := ds.foldl (fun a c => 10 * a + charVal c) 0

/-- The whitespace characters relevant to JS `trim` on log data. -/
def isWSC (c : Char) : Bool := c.toNat = 32 || c.toNat = 9 || c.toNat = 10 || c.toNat = 13

/-- ASCII decimal digit test. -/
def isDigitC (c : Char) : Bool := 48 ≤ c.toNat && c.toNat ≤ 57

/-- The maximal digit javascript-style numeric parse of a leading digit run:
`none` models the `NaN` result. -/
def digitRunVal (s : List Char) : Option Nat :=
  let ds := s.takeWhile isDigitC
  if ds.isEmpty then none else some (valOfDigits ds)

/-- Model of JS `parseInt(s, 10)`: skip leading whitespace, optional sign,
maximal run of digits, `NaN` (here `none`) when no digit is found.
Trailing garbage is ignored, exactly as in JS. -/
def jsParseInt (s : List Char) : Option Int :=
  match s.dropWhile isWSC with
  | [] => none
  | c :: rest =>
    if c = '-' then (digitRunVal rest).map (fun n => -(n : Int))
    else if c = '+' then (digitRunVal rest).map (fun n => (n : Int))
    else (digitRunVal (c :: rest)).map (fun n => (n : Int))

/-- Prepend a character to the first chunk of a split result
(the way JS `split` accumulates the current chunk). -/
def consHead (c : Char) : List (List Char) → List (List Char)
  | [] => [[c]]
  | h :: t => (c :: h) :: t

/-- Model of JS `String.prototype.split` with a one-character separator. -/
def splitCh (sep : Char) : List Char → List (List Char)
  | [] => [[]]
  | c :: rest => if c = sep then [] :: splitCh sep rest else consHead c (splitCh sep rest)

/-- Model of JS `split('\n\n')`: leftmost, non-overlapping matches of the
two-character separator. -/
def splitNLNL : List Char → List (List Char)
  | [] => [[]]
  | [c] => [[c]]
  | c :: d :: rest =>
    if c = '\n' && d = '\n' then [] :: splitNLNL rest
    else consHead c (splitNLNL (d :: rest))

/-- Holds (as `true`) when the text contains no two consecutive newline characters,
i.e. no occurrence of the block separator. -/
def noNLNL : List Char → Bool
  | [] => true
  | c :: rest =>
    (match rest with
     | d :: _ => !(c = '\n' && d = '\n')
     | [] => true) && noNLNL rest

/-- Model of JS `String.prototype.trim`. -/
def jsTrim (s : List Char) : List Char :=
  ((s.dropWhile isWSC).reverse.dropWhile isWSC).reverse

/-- Model of JS truthiness of `block.trim()`: the trimmed text is non-empty. -/
def nonBlank (s : List Char) : Bool := !(jsTrim s).isEmpty

-- ### Data model (src/agent/logger/types.ts)

/-- One parsed or written log entry.  The three numeric fields are JS numbers
produced by `parseInt`, hence possibly `NaN`, modelled as `Option Int` with
`none` for `NaN`.  `message` is the deserialized payload. -/
structure LogEntry (α : Type) where
  count : Option Int
  timestamp : Option Int
  timeDiff : Option Int
  message : α
deriving DecidableEq

/-- Lexical well-formedness of a serialized payload, satisfied by
`JSON.stringify(v, null, 2)` output for every JSON value `v`: non-empty, does
not start or end with a newline, and contains no blank line (two consecutive
newlines). -/
def serSafe (s : List Char) : Prop :=
  s ≠ [] ∧ s.head? ≠ some '\n' ∧ s.getLast? ≠ some '\n' ∧ noNLNL s = true

instance (s : List Char) : Decidable (serSafe s) :=
  inferInstanceAs (Decidable (s ≠ [] ∧ s.head? ≠ some '\n' ∧ s.getLast? ≠ some '\n'
    ∧ noNLNL s = true))

-- ### EventLogReader (src/agent/logger/LogPlayer.ts, parseLogFile)

/-- One iteration of the block loop in `LogPlayer.parseLogFile`: skip blocks of
fewer than two lines, skip blocks whose first line does not split into exactly
three hyphen-separated fields, run `parseInt` on the three fields (NaN values
are NOT rejected), and skip blocks whose payload the JSON parser `de`
rejects. -/
def parseBlock {α : Type} (de : List Char → Option α) (block : List Char) :
    Option (LogEntry α) :=
  match splitCh '\n' block with
  | [] => none
  | [_] => none
  | header :: l1 :: ls =>
    match splitCh '-' header with
    | [p0, p1, p2] =>
      match de (List.intercalate ['\n'] (l1 :: ls)) with
      | none => none
      | some m => some ⟨jsParseInt p0, jsParseInt p1, jsParseInt p2, m⟩
    | _ => none

/-- Model of `LogPlayer.parseLogFile`: split the file on blank lines, keep the blocks
whose trimmed text is non-empty, and parse each block, silently skipping
malformed ones. -/
def parseLogFile {α : Type} (de : List Char → Option α) (content : List Char) :
    List (LogEntry α) :=
  ((splitNLNL content).filter nonBlank).filterMap (parseBlock de)

/-- The summary record returned by `LogPlayer.getLogSummary`. -/
structure LogSummary where
  filePath : List Char
  totalMessages : Nat
  firstTimestamp : Option Int
  lastTimestamp : Option Int
  duration : Option Int
deriving DecidableEq

/-- Model of JS subtraction on possibly-NaN numbers. -/
def jsSub : Option Int → Option Int → Option Int
  | some a, some b => some (a - b)
  | _, _ => none

/-- Model of `LogPlayer.getLogSummary`: `null` when the file parses to zero entries,
otherwise the entry count, first and last timestamps and their difference. -/
def getLogSummary {α : Type} (de : List Char → Option α) (filePath content : List Char) :
    Option LogSummary :=
  match parseLogFile de content with
  | [] => none
  | e :: es =>
    some ⟨filePath, es.length + 1, e.timestamp, (es.getLastD e).timestamp,
      jsSub (es.getLastD e).timestamp e.timestamp⟩

-- ### ReplayScheduler (src/agent/logger/LogPlayer.ts, replay)

/-- The two timing disciplines. -/
inductive PlayMode where
  | realtime
  | fixed
deriving DecidableEq

/-- State of a `LogPlayer` after construction. -/
structure LogPlayer where
  logFilePath : List Char
  mode : PlayMode
  fixedInterval : ℚ
  speed : ℚ
deriving DecidableEq

/-- The options object accepted by the `LogPlayer` constructor; `none` models
an absent (undefined) field. -/
structure LogPlayerOptions where
  logFilePath : List Char
  mode : Option PlayMode
  fixedInterval : Option ℚ
  speed : Option ℚ

/-- Model of JS `x || dflt` on a numeric option: an absent value and the falsy number 0
both yield the default. -/
def jsOrQ (v : Option ℚ) (dflt : ℚ) : ℚ :=
  match v with
  | none => dflt
  | some x => if x = 0 then dflt else x

/-- The `LogPlayer` constructor: `mode || 'realtime'`,
`fixedInterval || 1000`, `speed || 1.0`. -/
def mkLogPlayer (o : LogPlayerOptions) : LogPlayer :=
  ⟨o.logFilePath, o.mode.getD PlayMode.realtime, jsOrQ o.fixedInterval 1000, jsOrQ o.speed 1⟩

/-- Model of `LogPlayer.calculateDelay`: fixed mode uses `fixedInterval / speed`;
realtime mode uses the NEXT entry's recorded `timeDiff / speed` (NaN
propagates). -/
def calculateDelay {α : Type} (p : LogPlayer) (_current next : LogEntry α) : Option ℚ :=
  if p.mode = PlayMode.fixed then some (p.fixedInterval / p.speed)
  else next.timeDiff.map (fun z => (z : ℚ) / p.speed)

/-- Observable events of one replay run: a callback delivery (with 0-based
index and total count) or an awaited sleep of the given duration. -/
inductive REvent (α : Type) where
  | deliver (entry : LogEntry α) (index : Nat) (total : Nat)
  | sleep (delay : Option ℚ)
deriving DecidableEq

/-- The loop body of `LogPlayer.replay`: deliver entry `i`, await the callback
(a rejection aborts the loop and propagates), then — except after the last
entry — await the computed inter-entry delay. -/
def replayGo {α ε : Type} (p : LogPlayer) (cb : LogEntry α → Nat → Nat → Except ε Unit)
    (total : Nat) : List (LogEntry α) → Nat → List (REvent α) × Except ε Unit
  | [], _ => ([], Except.ok ())
  | e :: rest, i =>
    match cb e i total with
    | Except.error err => ([REvent.deliver e i total], Except.error err)
    | Except.ok _ =>
      match rest with
      | [] => ([REvent.deliver e i total], Except.ok ())
      | next :: _ =>
        let r := replayGo p cb total rest (i + 1)
        (REvent.deliver e i total :: REvent.sleep (calculateDelay p e next) :: r.1, r.2)

/-- Model of `LogPlayer.replay` over an already-parsed entry list. -/
def replayEntries {α ε : Type} (p : LogPlayer) (entries : List (LogEntry α))
    (cb : LogEntry α → Nat → Nat → Except ε Unit) : List (REvent α) × Except ε Unit :=
  replayGo p cb entries.length entries 0

/-- Model of `LogPlayer.replay`: parse the file, then drive the callback over the
parsed entries. -/
def replay {α ε : Type} (p : LogPlayer) (de : List Char → Option α) (content : List Char)
    (cb : LogEntry α → Nat → Nat → Except ε Unit) : List (REvent α) × Except ε Unit :=
  replayEntries p (parseLogFile de content) cb

/-- The deliveries of a replay trace, in order. -/
def deliversOf {α : Type} (tr : List (REvent α)) : List (LogEntry α × Nat × Nat) :=
  tr.filterMap (fun ev => match ev with
    | REvent.deliver e i t => some (e, i, t)
    | _ => none)

/-- The trace asserted by the specification: each entry is delivered in index
order, with exactly one wait between consecutive deliveries — none after the
last — equal to `entries[i+1].timeDiff / speed` in realtime mode and to
`fixedInterval / speed` in fixed mode. -/
def claimTraceGo {α : Type} (p : LogPlayer) (total : Nat) :
    List (LogEntry α) → Nat → List (REvent α)
  | [], _ => []
  | [e], i => [REvent.deliver e i total]
  | e :: next :: rest, i =>
    REvent.deliver e i total
      :: REvent.sleep (if p.mode = PlayMode.fixed then some (p.fixedInterval / p.speed)
           else next.timeDiff.map (fun z => (z : ℚ) / p.speed))
      :: claimTraceGo p total (next :: rest) (i + 1)

/-- The ascending-index listing of a run of entries delivered starting at
index `i`: what the specification means by delivering entries in strict
ascending parsed order. -/
def indexedFrom {α : Type} (total : Nat) : List (LogEntry α) → Nat → List (LogEntry α × Nat × Nat)
  | [], _ => []
  | e :: rest, i => (e, i, total) :: indexedFrom total rest (i + 1)

-- ### EventLogWriter (AgentLogger)

/-- The options accepted by the `AgentLogger` constructor. -/
structure LoggerOptions where
  logDir : Option (List Char)
  modelName : List Char
  enabled : Option Bool

/-- In-memory state of one `AgentLogger`.  `fileContent` is the accumulated
bytes of the log file (`none` while no file/stream exists, which is exactly
when `writeStream` is null in the source). -/
structure AgentLogger where
  logDir : List Char
  modelName : List Char
  enabled : Bool
  logFilePath : Option (List Char)
  messageCount : Nat
  lastTimestamp : Int
  fileContent : Option (List Char)
deriving DecidableEq

/-- The fields the source reads off a JS `Date`:`getFullYear`, `getMonth`
(0-based!), `getDate`, `getHours`, `getMinutes`, `getSeconds`, `getTime`. -/
structure DateParts where
  year : Nat
  monthIndex : Nat
  day : Nat
  hours : Nat
  minutes : Nat
  seconds : Nat
  epochMillis : Nat
deriving DecidableEq

/-- Model of JS `String(n).padStart(2, '0')`. -/
def pad2 (s : List Char) : List Char :=
  if 2 ≤ s.length then s else if s.length = 1 then '0' :: s else ['0', '0']

/-- Model of `AgentLogger.formatDateTime`:
`year-month-day_hours:minutes:seconds` with two-digit padding of all
components except the year. -/
def formatDateTime (d : DateParts) : List Char :=
  natChars d.year ++ '-' :: pad2 (natChars (d.monthIndex + 1)) ++ '-' :: pad2 (natChars d.day)
    ++ '_' :: pad2 (natChars d.hours) ++ ':' :: pad2 (natChars d.minutes)
    ++ ':' :: pad2 (natChars d.seconds)

/-- Characters preserved by the sanitizer: `[a-zA-Z0-9-_.]`. -/
def isSafeChar (c : Char) : Bool :=
  (65 ≤ c.toNat && c.toNat ≤ 90) || (97 ≤ c.toNat && c.toNat ≤ 122) || isDigitC c
    || c = '-' || c = '_' || c = '.'

/-- Model of `AgentLogger.sanitizeModelName`: replace every character outside
`[a-zA-Z0-9-_.]` with an underscore. -/
def sanitizeModelName (s : List Char) : List Char :=
  s.map (fun c => if isSafeChar c then c else '_')

/-- The file name computed by `AgentLogger.initializeLogFile`:
`eko-log-<epochMillis>-<formatDateTime>-<sanitizedModelName>.log`. -/
def logFileName (d : DateParts) (modelName : List Char) : List Char :=
  ("eko-log-").data ++ natChars d.epochMillis ++ '-' :: formatDateTime d
    ++ '-' :: sanitizeModelName modelName ++ (".log").data

/-- Default log directory (`path.join(process.cwd(), 'agent-log')`, with the
process working directory abstracted away). -/
def defaultLogDir : List Char := ("agent-log").data

/-- The `AgentLogger` constructor: `enabled` defaults to true
(`options.enabled !== false`); when enabled, `initializeLogFile` computes the
file path and opens an (empty) append stream; when disabled nothing is
created. -/
def mkAgentLogger (o : LoggerOptions) (d : DateParts) : AgentLogger :=
  let dir := o.logDir.getD defaultLogDir
  if o.enabled ≠ some false then
    { logDir := dir, modelName := o.modelName, enabled := true,
      logFilePath := some (dir ++ '/' :: logFileName d o.modelName),
      messageCount := 0, lastTimestamp := 0, fileContent := some [] }
  else
    { logDir := dir, modelName := o.modelName, enabled := false,
      logFilePath := none, messageCount := 0, lastTimestamp := 0,
      fileContent := none }

/-- The metadata line of one record: `count-timestamp-timeDiff`. -/
def headerOf (count : Nat) (timestamp timeDiff : Int) : List Char :=
  natChars count ++ '-' :: intChars timestamp ++ '-' :: intChars timeDiff

/-- One record without its trailing separator: header line, newline, payload. -/
def blockOf {α : Type} (ser : α → List Char) (count : Nat) (timestamp timeDiff : Int)
    (m : α) : List Char :=
  headerOf count timestamp timeDiff ++ '\n' :: ser m

/-- Model of `AgentLogger.formatLogEntry`: `header\n<payload>\n\n`. -/
def formatLogEntry {α : Type} (ser : α → List Char) (count : Nat)
    (timestamp timeDiff : Int) (m : α) : List Char :=
  blockOf ser count timestamp timeDiff m ++ ['\n', '\n']

/-- Model of `AgentLogger.log` at wall-clock time `now`: a no-op when disabled or when
no stream exists; otherwise assign the next sequence number, compute the time
difference (0 for the first message), append the formatted record and remember
`now`. -/
def AgentLogger.log {α : Type} (ser : α → List Char) (st : AgentLogger) (m : α)
    (now : Int) : AgentLogger :=
  if st.enabled = false then st
  else match st.fileContent with
    | none => st
    | some content =>
      let timeDiff : Int := if st.messageCount = 0 then 0 else now - st.lastTimestamp
      let count := st.messageCount + 1
      { st with
        messageCount := count
        lastTimestamp := now
        fileContent := some (content ++ formatLogEntry ser count now timeDiff m) }

/-- Fold `AgentLogger.log` over a list of (message, timestamp) pairs. -/
def AgentLogger.logAll {α : Type} (ser : α → List Char) (st : AgentLogger)
    (ps : List (α × Int)) : AgentLogger :=
  ps.foldl (fun s p => AgentLogger.log ser s p.1 p.2) st

/-- Model of `AgentLogger.close`: when a stream exists the result is the stream's
`end` outcome (an external effect, passed as `endResult`); with no stream the
method returns immediately and the promise resolves. -/
def AgentLogger.close (st : AgentLogger) (endResult : Except (List Char) Unit) :
    Except (List Char) Unit :=
  match st.fileContent with
  | some _ => endResult
  | none => Except.ok ()

/-- Model of `AgentLogger.getLogFilePath`. -/
def AgentLogger.getLogFilePath (st : AgentLogger) : Option (List Char) := st.logFilePath

/-- Model of `AgentLogger.getMessageCount`. -/
def AgentLogger.getMessageCount (st : AgentLogger) : Nat := st.messageCount

/-- Model of `AgentLogger.isEnabled`. -/
def AgentLogger.isEnabled (st : AgentLogger) : Bool := st.enabled

/-- The file bytes produced by a run of `log` calls starting from sequence
number `c` and previous timestamp `lt`. -/
def recordsFrom {α : Type} (ser : α → List Char) : Nat → Int → List (α × Int) → List Char
  | _, _, [] => []
  | c, lt, (m, t) :: ps =>
    formatLogEntry ser (c + 1) t (if c = 0 then 0 else t - lt) m ++ recordsFrom ser (c + 1) t ps

/-- The entry list the round-trip claim expects back from the parser:
sequence numbers `c+1, c+2, …`, the recorded timestamps, the consecutive
timestamp differences (0 for the very first message), and the original
payloads in order. -/
def roundTripEntries {α : Type} : Nat → Int → List (α × Int) → List (LogEntry α)
  | _, _, [] => []
  | c, lt, (m, t) :: ps =>
    ⟨some ((c : Int) + 1), some t, some (if c = 0 then 0 else t - lt), m⟩
      :: roundTripEntries (c + 1) t ps

-- ### ReplaySinkAdapter (src/agent/logger/LogPlayerSSEAdapter.ts)

/-- The metadata object passed to the adapter's `onMessage` hook. -/
structure MsgMeta where
  count : Option Int
  timestamp : Option Int
  timeDiff : Option Int
  index : Nat
  total : Nat
deriving DecidableEq

/-- Errors that can escape `LogPlayerSSEAdapter.start`: the empty-log error
thrown when no summary is available, or a failure of the message callback. -/
inductive StartError (ε : Type) where
  | emptyLog
  | callbackFailure (e : ε)
deriving DecidableEq

/-- Lifecycle hook invocations observable from `LogPlayerSSEAdapter.start`. -/
inductive HookEvent (α ε : Type) where
  | onStartHook (s : LogSummary)
  | onMessageHook (payload : α) (meta : MsgMeta)
  | onCompleteHook
  | onErrorHook (e : StartError ε)
deriving DecidableEq

/-- Model of `LogPlayerSSEAdapter.start`: compute the summary (throwing the empty-log
error when it is `null`), invoke `onStart` if supplied, replay the file
forwarding each entry to `onMessage`, then `onComplete`; any error is passed
to `onError` when that hook is supplied and rethrown otherwise. -/
def adapterStart {α ε : Type} (p : LogPlayer) (de : List Char → Option α)
    (content : List Char) (onMessage : α → MsgMeta → Except ε Unit)
    (hasOnStart hasOnComplete hasOnError : Bool) :
    List (HookEvent α ε) × Except (StartError ε) Unit :=
  match getLogSummary de p.logFilePath content with
  | none =>
    if hasOnError then ([HookEvent.onErrorHook StartError.emptyLog], Except.ok ())
    else ([], Except.error StartError.emptyLog)
  | some s =>
    let startEvs := if hasOnStart then [HookEvent.onStartHook s] else []
    let cb : LogEntry α → Nat → Nat → Except ε Unit := fun entry i total =>
      onMessage entry.message ⟨entry.count, entry.timestamp, entry.timeDiff, i, total⟩
    let r := replayEntries p (parseLogFile de content) cb
    let msgEvs := r.1.filterMap (fun ev => match ev with
      | REvent.deliver e i t =>
        some (HookEvent.onMessageHook e.message ⟨e.count, e.timestamp, e.timeDiff, i, t⟩)
      | _ => none)
    match r.2 with
    | Except.ok _ =>
      (startEvs ++ msgEvs ++ (if hasOnComplete then [HookEvent.onCompleteHook] else []),
        Except.ok ())
    | Except.error err =>
      if hasOnError then
        (startEvs ++ msgEvs ++ [HookEvent.onErrorHook (StartError.callbackFailure err)],
          Except.ok ())
      else (startEvs ++ msgEvs, Except.error (StartError.callbackFailure err))

-- ### Replay configuration (src/config/replayConfig.ts)

/-- The record returned by `getFixedIntervalConfig`. -/
structure IntervalConfig where
  default : ℚ
  min : ℚ
  max : ℚ
  step : ℚ
deriving DecidableEq

/-- Model of `getFixedIntervalConfig`: in development the default is 1 and the
validation minimum is 0; in production they are 30 and 10. -/
def getFixedIntervalConfig (isDev : Bool) : IntervalConfig :=
  ⟨if isDev then 1 else 30, if isDev then 0 else 10, 60000, 1⟩

-- ### Concrete instances used by witnesses and counterexamples

/-- A toy payload codec for concrete witnesses: natural numbers serialized in
decimal.  It satisfies `serSafe` and round-trips, standing in for the
JSON-representable payloads of the claims. -/
def deNat (s : List Char) : Option Nat :=
  if s ≠ [] ∧ (∀ c ∈ s, isDigitC c = true) then some (valOfDigits s) else none

/-- A concrete five-entry log used to refute the cancellation claim: the
scheduler has no cancellation input, so a replay of these five entries always
delivers all five. -/
def fiveEntries : List (LogEntry Nat) :=
  [⟨some 1, some 0, some 0, 1⟩, ⟨some 2, some 100, some 100, 2⟩,
   ⟨some 3, some 200, some 100, 3⟩, ⟨some 4, some 300, some 100, 4⟩,
   ⟨some 5, some 400, some 100, 5⟩]

/-- A callback that always succeeds. -/
def okCb : LogEntry Nat → Nat → Nat → Except Unit Unit := fun _ _ _ => Except.ok ()

/-- A callback that succeeds on index 0 and rejects from index 1 on. -/
def failAt1 : LogEntry Nat → Nat → Nat → Except Unit Unit :=
  fun _ i _ => if 1 ≤ i then Except.error () else Except.ok ()

/-- The file-name shape asserted by claim C7:
`eko-log-<epochMillis>-<YYYY_MM_DD_HH_MM_SS>-<sanitized-label>.log` with
underscore-separated date-time components. -/
def claimedDateTime (d : DateParts) : List Char :=
  natChars d.year ++ '_' :: pad2 (natChars (d.monthIndex + 1)) ++ '_' :: pad2 (natChars d.day)
    ++ '_' :: pad2 (natChars d.hours) ++ '_' :: pad2 (natChars d.minutes)
    ++ '_' :: pad2 (natChars d.seconds)

/-- The full file name asserted by claim C7. -/
def claimedFileName (d : DateParts) (label : List Char) : List Char :=
  ("eko-log-").data ++ natChars d.epochMillis ++ '-' :: claimedDateTime d
    ++ '-' :: sanitizeModelName label ++ (".log").data

/-- The file name of the amended claim: date parts joined by hyphens, time
parts joined by colons, date and time joined by an underscore; only the label
is sanitized. -/
def amendedFileName (d : DateParts) (label : List Char) : List Char :=
  ("eko-log-").data ++ natChars d.epochMillis
    ++ '-' :: (natChars d.year ++ '-' :: pad2 (natChars (d.monthIndex + 1))
      ++ '-' :: pad2 (natChars d.day) ++ '_' :: pad2 (natChars d.hours)
      ++ ':' :: pad2 (natChars d.minutes) ++ ':' :: pad2 (natChars d.seconds))
    ++ '-' :: sanitizeModelName label ++ (".log").data

-- ### Basic facts about the decimal printer

theorem natCharsF_fuel_irrel : ∀ n f g, n < f → n < g → natCharsF f n = natCharsF g n := by
  intro n
  induction n using Nat.strong_induction_on with
  | _ n ih =>
    intro f g hf hg
    match f, g with
    | f' + 1, g' + 1 =>
      simp only [natCharsF]
      by_cases h10 : n < 10
      · simp [h10]
      · simp only [h10, if_false]
        have hlt : n / 10 < n := Nat.div_lt_self (by omega) (by omega)
        rw [ih (n / 10) hlt f' g' (by omega) (by omega)]

theorem natChars_eq (n : Nat) :
    natChars n = if n < 10 then [digitChar n] else natChars (n / 10) ++ [digitChar (n % 10)] := by
  show natCharsF (n + 1) n = _
  by_cases h10 : n < 10
  · simp [natCharsF, h10]
  · have hlt : n / 10 < n := Nat.div_lt_self (by omega) (by omega)
    simp only [natCharsF, h10, if_false]
    rw [natCharsF_fuel_irrel (n / 10) n (n / 10 + 1) (by omega) (by omega)]
    rfl

theorem digitChar_toNat {n : Nat} (h : n < 10) : (digitChar n).toNat = 48 + n := by
  interval_cases n <;> rfl

theorem digitChar_isDigit {n : Nat} (h : n < 10) : isDigitC (digitChar n) = true := by
  interval_cases n <;> rfl

theorem charVal_digitChar {n : Nat} (h : n < 10) : charVal (digitChar n) = n := by
  interval_cases n <;> rfl

theorem natChars_ne_nil (n : Nat) : natChars n ≠ [] := by
  rw [natChars_eq]
  by_cases h10 : n < 10 <;> simp [h10]

theorem natChars_all_digits (n : Nat) : ∀ c ∈ natChars n, isDigitC c = true := by
  induction n using Nat.strong_induction_on with
  | _ n ih =>
    rw [natChars_eq]
    by_cases h10 : n < 10
    · simp only [h10, if_true, List.mem_singleton]
      rintro c rfl
      exact digitChar_isDigit h10
    · simp only [h10, if_false, List.mem_append, List.mem_singleton]
      rintro c (hc | rfl)
      · exact ih (n / 10) (Nat.div_lt_self (by omega) (by omega)) c hc
      · exact digitChar_isDigit (Nat.mod_lt _ (by omega))

theorem valOfDigits_append (ds : List Char) (c : Char) :
    valOfDigits (ds ++ [c]) = 10 * valOfDigits ds + charVal c := by
  simp [valOfDigits, List.foldl_append]

theorem valOfDigits_natChars (n : Nat) : valOfDigits (natChars n) = n := by
  induction n using Nat.strong_induction_on with
  | _ n ih =>
    rw [natChars_eq]
    by_cases h10 : n < 10
    · simp [h10, valOfDigits, charVal_digitChar h10]
    · simp only [h10, if_false]
      rw [valOfDigits_append, ih (n / 10) (Nat.div_lt_self (by omega) (by omega)),
        charVal_digitChar (Nat.mod_lt _ (by omega))]
      omega

theorem digit_not_ws {c : Char} (h : isDigitC c = true) : isWSC c = false := by
  simp only [isDigitC, Bool.and_eq_true, decide_eq_true_eq] at h
  simp only [isWSC, Bool.or_eq_false_iff, decide_eq_false_iff_not]
  omega

theorem digit_ne_nl {c : Char} (h : isDigitC c = true) : c ≠ '\n' := by
  simp only [isDigitC, Bool.and_eq_true, decide_eq_true_eq] at h
  intro hc
  subst hc
  simp at h

theorem digit_ne_dash {c : Char} (h : isDigitC c = true) : c ≠ '-' := by
  simp only [isDigitC, Bool.and_eq_true, decide_eq_true_eq] at h
  intro hc
  subst hc
  simp at h

theorem jsParseInt_digits (s : List Char) (hne : s ≠ []) (hd : ∀ c ∈ s, isDigitC c = true) :
    jsParseInt s = some ((valOfDigits s : Nat) : Int) := by
  match s with
  | c :: t =>
    have hc : isDigitC c = true := hd c (List.mem_cons_self c t)
    have hdrop : (c :: t).dropWhile isWSC = c :: t := by
      rw [List.dropWhile_cons_of_neg]
      simp [digit_not_ws hc]
    have htake : (c :: t).takeWhile isDigitC = c :: t := List.takeWhile_eq_self_iff.mpr hd
    have hcm : c ≠ '-' := digit_ne_dash hc
    have hcp : c ≠ '+' := by
      simp only [isDigitC, Bool.and_eq_true, decide_eq_true_eq] at hc
      intro h
      subst h
      simp at hc
    simp only [jsParseInt, hdrop, hcm, hcp, if_false, digitRunVal, htake]
    simp

-- ### Facts about the split models

theorem splitCh_ne_nil (sep : Char) : ∀ s, splitCh sep s ≠ [] := by
  intro s
  induction s with
  | nil => simp [splitCh]
  | cons c rest ih =>
    simp only [splitCh]
    by_cases h : c = sep
    · simp [h]
    · simp only [h, if_false]
      cases hs : splitCh sep rest with
      | nil => exact absurd hs ih
      | cons a t => simp [consHead]

theorem splitCh_no_sep (sep : Char) : ∀ s, (∀ c ∈ s, c ≠ sep) → splitCh sep s = [s] := by
  intro s
  induction s with
  | nil => simp [splitCh]
  | cons c rest ih =>
    intro h
    have hc : c ≠ sep := h c (List.mem_cons_self c rest)
    simp only [splitCh, hc, if_false]
    rw [ih (fun x hx => h x (List.mem_cons_of_mem c hx))]
    rfl

theorem splitCh_append (sep : Char) :
    ∀ xs ys, (∀ c ∈ xs, c ≠ sep) → splitCh sep (xs ++ sep :: ys) = xs :: splitCh sep ys := by
  intro xs
  induction xs with
  | nil => intro ys _; simp [splitCh]
  | cons c rest ih =>
    intro ys h
    have hc : c ≠ sep := h c (List.mem_cons_self c rest)
    have hih := ih ys (fun x hx => h x (List.mem_cons_of_mem c hx))
    simp only [List.cons_append, splitCh, hc, if_false, List.append_eq] at hih ⊢
    rw [hih]
    rfl

theorem intercalate_single (s : List Char) (a : List Char) : List.intercalate s [a] = a := by
  simp [List.intercalate, List.intersperse]

theorem intercalate_cons₂ (s a b : List Char) (t : List (List Char)) :
    List.intercalate s (a :: b :: t) = a ++ s ++ List.intercalate s (b :: t) := by
  simp [List.intercalate, List.intersperse, List.append_assoc]

theorem intercalate_consHead (s : List Char) (c : Char) (L : List (List Char)) (h : L ≠ []) :
    List.intercalate s (consHead c L) = c :: List.intercalate s L := by
  match L with
  | [] => exact absurd rfl h
  | [a] => simp [consHead, intercalate_single]
  | a :: b :: t =>
    simp only [consHead]
    rw [intercalate_cons₂, intercalate_cons₂]
    rfl

theorem intercalate_splitCh (sep : Char) : ∀ s, List.intercalate [sep] (splitCh sep s) = s := by
  intro s
  induction s with
  | nil => simp [splitCh, intercalate_single]
  | cons c rest ih =>
    by_cases h : c = sep
    · subst h
      have e1 : splitCh c (c :: rest) = [] :: splitCh c rest := by
        simp [splitCh]
      rw [e1]
      cases hs : splitCh c rest with
      | nil => exact absurd hs (splitCh_ne_nil c rest)
      | cons a t =>
        rw [intercalate_cons₂]
        rw [hs] at ih
        rw [ih]
        rfl
    · have e1 : splitCh sep (c :: rest) = consHead c (splitCh sep rest) := by
        simp [splitCh, h]
      rw [e1, intercalate_consHead _ _ _ (splitCh_ne_nil sep rest), ih]

theorem splitNLNL_ne_nil : ∀ s, splitNLNL s ≠ [] := by
  intro s
  match s with
  | [] => simp [splitNLNL]
  | [c] => simp [splitNLNL]
  | c :: d :: rest =>
    simp only [splitNLNL]
    by_cases h : c = '\n' && d = '\n'
    · simp [h]
    · simp only [h, if_false]
      cases hs : splitNLNL (d :: rest) with
      | nil => exact absurd hs (splitNLNL_ne_nil (d :: rest))
      | cons a t => simp [consHead]

theorem noNLNL_cons₂ (c d : Char) (rest : List Char) :
    noNLNL (c :: d :: rest) = ((!(c = '\n' && d = '\n')) && noNLNL (d :: rest)) := rfl

theorem splitNLNL_no_sep : ∀ s, noNLNL s = true → splitNLNL s = [s] := by
  intro s
  match s with
  | [] => intro _; rfl
  | [c] => intro _; rfl
  | c :: d :: rest =>
    intro h
    rw [noNLNL_cons₂, Bool.and_eq_true] at h
    simp only [splitNLNL, Bool.not_eq_eq_eq_not, Bool.not_true] at h
    simp only [splitNLNL, h.1, if_false]
    rw [splitNLNL_no_sep (d :: rest) h.2]
    rfl

theorem splitNLNL_append :
    ∀ b rest, noNLNL b = true → b.getLast? ≠ some '\n' →
      splitNLNL (b ++ '\n' :: '\n' :: rest) = b :: splitNLNL rest := by
  intro b
  match b with
  | [] => intro rest _ _; simp [splitNLNL]
  | [c] =>
    intro rest _ h2
    have hc : c ≠ '\n' := by simpa using h2
    have e1 : splitNLNL ('\n' :: '\n' :: rest) = [] :: splitNLNL rest := by
      simp [splitNLNL]
    calc splitNLNL ([c] ++ '\n' :: '\n' :: rest)
        = consHead c (splitNLNL ('\n' :: '\n' :: rest)) := by
          simp [splitNLNL, hc]
      _ = consHead c ([] :: splitNLNL rest) := by rw [e1]
      _ = [c] :: splitNLNL rest := rfl
  | a :: c :: bs =>
    intro rest h1 h2
    rw [noNLNL_cons₂, Bool.and_eq_true] at h1
    simp only [Bool.not_eq_eq_eq_not, Bool.not_true] at h1
    have h2' : (c :: bs).getLast? ≠ some '\n' := by
      rwa [List.getLast?_cons_cons] at h2
    have ihyp := splitNLNL_append (c :: bs) rest h1.2 h2'
    simp only [List.cons_append] at ihyp ⊢
    simp only [splitNLNL, h1.1, if_false]
    rw [ihyp]
    rfl

theorem noNLNL_append_left :
    ∀ xs ys, (∀ c ∈ xs, c ≠ '\n') → noNLNL (xs ++ ys) = noNLNL ys := by
  intro xs
  induction xs with
  | nil => intro ys _; rfl
  | cons a t ih =>
    intro ys h
    have ha : a ≠ '\n' := h a (List.mem_cons_self a t)
    have hrest := ih ys (fun x hx => h x (List.mem_cons_of_mem a hx))
    cases t with
    | nil =>
      cases ys with
      | nil => rfl
      | cons y ys' =>
        show noNLNL (a :: y :: ys') = noNLNL (y :: ys')
        rw [noNLNL_cons₂]
        simp [ha]
    | cons b t' =>
      show noNLNL (a :: b :: (t' ++ ys)) = noNLNL ys
      rw [noNLNL_cons₂]
      have hrest2 : noNLNL (b :: (t' ++ ys)) = noNLNL ys := by
        simpa using hrest
      rw [hrest2]
      simp [ha]

theorem noNLNL_of_no_nl (s : List Char) (h : ∀ c ∈ s, c ≠ '\n') : noNLNL s = true := by
  have := noNLNL_append_left s [] h
  simpa using this

theorem mem_dropWhile_of_neg {p : Char → Bool} {c : Char} :
    ∀ s : List Char, c ∈ s → p c = false → c ∈ s.dropWhile p := by
  intro s
  induction s with
  | nil => intro h _; exact absurd h (List.not_mem_nil c)
  | cons a t ih =>
    intro hm hp
    by_cases hpa : p a = true
    · rw [List.dropWhile_cons_of_pos hpa]
      rcases List.mem_cons.mp hm with h | h
      · subst h; rw [hp] at hpa; exact absurd hpa (by simp)
      · exact ih h hp
    · rw [List.dropWhile_cons_of_neg (by simpa using hpa)]
      exact hm

theorem nonBlank_of_mem (s : List Char) (c : Char) (hm : c ∈ s) (hw : isWSC c = false) :
    nonBlank s = true := by
  have hne : jsTrim s ≠ [] := by
    intro hfalse
    have h1 : c ∈ s.dropWhile isWSC := mem_dropWhile_of_neg s hm hw
    have h2 : c ∈ (s.dropWhile isWSC).reverse := List.mem_reverse.mpr h1
    have h3 : c ∈ (s.dropWhile isWSC).reverse.dropWhile isWSC :=
      mem_dropWhile_of_neg _ h2 hw
    have h4 : (s.dropWhile isWSC).reverse.dropWhile isWSC = [] := by
      have := congrArg List.reverse hfalse
      simpa [jsTrim] using this
    rw [h4] at h3
    exact absurd h3 (List.not_mem_nil c)
  simp [nonBlank, List.isEmpty_iff, hne]

-- ### The writer's blocks parse back to the original entries

theorem intChars_nonneg {z : Int} (h : 0 ≤ z) : intChars z = natChars z.toNat := by
  simp [intChars, not_lt.mpr h]


theorem headerOf_chars (c : Nat) (t d : Int) (ht : 0 ≤ t) (hd : 0 ≤ d) :
    ∀ ch ∈ headerOf c t d, isDigitC ch = true ∨ ch = '-' := by
  intro ch hm
  simp only [headerOf, intChars_nonneg ht, intChars_nonneg hd] at hm
  rcases List.mem_append.mp hm with h | h
  · rcases List.mem_append.mp h with h | h
    · exact Or.inl (natChars_all_digits c ch h)
    · rcases List.mem_cons.mp h with h | h
      · exact Or.inr h
      · exact Or.inl (natChars_all_digits t.toNat ch h)
  · rcases List.mem_cons.mp h with h | h
    · exact Or.inr h
    · exact Or.inl (natChars_all_digits d.toNat ch h)

theorem headerOf_no_nl (c : Nat) (t d : Int) (ht : 0 ≤ t) (hd : 0 ≤ d) :
    ∀ ch ∈ headerOf c t d, ch ≠ '\n' := by
  intro ch hm
  rcases headerOf_chars c t d ht hd ch hm with h | h
  · exact digit_ne_nl h
  · subst h
    decide

theorem splitDash_headerOf (c : Nat) (t d : Int) (ht : 0 ≤ t) (hd : 0 ≤ d) :
    splitCh '-' (headerOf c t d) = [natChars c, natChars t.toNat, natChars d.toNat] := by
  have h1 : ∀ ch ∈ natChars c, ch ≠ '-' := fun ch h => digit_ne_dash (natChars_all_digits c ch h)
  have h2 : ∀ ch ∈ natChars t.toNat, ch ≠ '-' :=
    fun ch h => digit_ne_dash (natChars_all_digits t.toNat ch h)
  have h3 : ∀ ch ∈ natChars d.toNat, ch ≠ '-' :=
    fun ch h => digit_ne_dash (natChars_all_digits d.toNat ch h)
  simp only [headerOf, intChars_nonneg ht, intChars_nonneg hd, List.append_assoc,
    List.cons_append]
  rw [splitCh_append '-' _ _ h1, splitCh_append '-' _ _ h2, splitCh_no_sep '-' _ h3]

theorem jsParseInt_natChars (n : Nat) : jsParseInt (natChars n) = some (n : Int) := by
  rw [jsParseInt_digits (natChars n) (natChars_ne_nil n) (natChars_all_digits n),
    valOfDigits_natChars]

theorem parseBlock_blockOf {α : Type} (de : List Char → Option α) (ser : α → List Char)
    (c : Nat) (t d : Int) (m : α) (hser : serSafe (ser m)) (hde : de (ser m) = some m)
    (ht : 0 ≤ t) (hd : 0 ≤ d) :
    parseBlock de (blockOf ser c t d m) = some ⟨some (c : Int), some t, some d, m⟩ := by
  obtain ⟨hne, _hhead, _hlast, _hnl⟩ := hser
  have hnl : ∀ ch ∈ headerOf c t d, ch ≠ '\n' := headerOf_no_nl c t d ht hd
  have hsplit : splitCh '\n' (blockOf ser c t d m)
      = headerOf c t d :: splitCh '\n' (ser m) := splitCh_append '\n' _ _ hnl
  obtain ⟨l1, ls, hls⟩ : ∃ l1 ls, splitCh '\n' (ser m) = l1 :: ls := by
    cases h : splitCh '\n' (ser m) with
    | nil => exact absurd h (splitCh_ne_nil '\n' (ser m))
    | cons a b => exact ⟨a, b, rfl⟩
  have hinter : List.intercalate ['\n'] (l1 :: ls) = ser m := by
    rw [← hls, intercalate_splitCh]
  simp only [parseBlock, hsplit, hls, splitDash_headerOf c t d ht hd, hinter, hde,
    jsParseInt_natChars, Int.toNat_of_nonneg ht, Int.toNat_of_nonneg hd]

theorem blockOf_noNLNL {α : Type} (ser : α → List Char) (c : Nat) (t d : Int) (m : α)
    (hser : serSafe (ser m)) (ht : 0 ≤ t) (hd : 0 ≤ d) :
    noNLNL (blockOf ser c t d m) = true := by
  obtain ⟨hne, hhead, _hlast, hnl⟩ := hser
  rw [blockOf.eq_def, noNLNL_append_left _ _ (headerOf_no_nl c t d ht hd)]
  cases hs : ser m with
  | nil => exact absurd hs hne
  | cons e tl =>
    have he : e ≠ '\n' := by
      rw [hs] at hhead
      simpa using hhead
    rw [noNLNL_cons₂]
    rw [hs] at hnl
    simp [he, hnl]

theorem blockOf_getLast {α : Type} (ser : α → List Char) (c : Nat) (t d : Int) (m : α)
    (hser : serSafe (ser m)) :
    (blockOf ser c t d m).getLast? ≠ some '\n' := by
  obtain ⟨hne, _hhead, hlast, _hnl⟩ := hser
  obtain ⟨e, tl, hs⟩ : ∃ e tl, ser m = e :: tl := by
    cases h : ser m with
    | nil => exact absurd h hne
    | cons a b => exact ⟨a, b, rfl⟩
  obtain ⟨x, hx⟩ : ∃ x, (e :: tl).getLast? = some x :=
    ⟨(e :: tl).getLast (by simp), List.getLast?_eq_getLast (e :: tl) (by simp)⟩
  rw [hs] at hlast
  rw [blockOf.eq_def, hs]
  rw [List.getLast?_append, List.getLast?_cons_cons, hx]
  simp only [Option.or]
  intro hcontra
  apply hlast
  rw [hx]
  simpa using hcontra

theorem blockOf_nonBlank {α : Type} (ser : α → List Char) (c : Nat) (t d : Int) (m : α) :
    nonBlank (blockOf ser c t d m) = true := by
  obtain ⟨ch, tl, hch⟩ : ∃ ch tl, natChars c = ch :: tl := by
    cases h : natChars c with
    | nil => exact absurd h (natChars_ne_nil c)
    | cons a b => exact ⟨a, b, rfl⟩
  have hdig : isDigitC ch = true := by
    apply natChars_all_digits c
    rw [hch]
    exact List.mem_cons_self ch tl
  apply nonBlank_of_mem _ ch _ (digit_not_ws hdig)
  simp [blockOf, headerOf, hch]

-- ### Parsing a full writer-produced file

theorem parseLogFile_nil {α : Type} (de : List Char → Option α) :
    parseLogFile de [] = [] := rfl

theorem parse_recordsFrom {α : Type} (de : List Char → Option α) (ser : α → List Char) :
    ∀ (ps : List (α × Int)) (c : Nat) (lt : Int),
      (∀ p ∈ ps, serSafe (ser p.1) ∧ de (ser p.1) = some p.1) →
      0 ≤ lt → List.Chain (fun a b : Int => a ≤ b) lt (ps.map Prod.snd) →
      parseLogFile de (recordsFrom ser c lt ps) = roundTripEntries c lt ps := by
  intro ps
  induction ps with
  | nil => intro c lt _ _ _; rfl
  | cons p ps ih =>
    obtain ⟨m, t⟩ := p
    intro c lt hall hlt hchain
    have hser := (hall (m, t) (List.mem_cons_self _ _)).1
    have hde := (hall (m, t) (List.mem_cons_self _ _)).2
    simp only [List.map_cons] at hchain
    have hltt : lt ≤ t := (List.chain_cons.mp hchain).1
    have hchain2 : List.Chain (fun a b : Int => a ≤ b) t (ps.map Prod.snd) :=
      (List.chain_cons.mp hchain).2
    have ht : (0 : Int) ≤ t := le_trans hlt hltt
    have hd : (0 : Int) ≤ (if c = 0 then 0 else t - lt) := by
      by_cases h : c = 0
      · simp [h]
      · simp only [h, if_false]
        omega
    have hrec : recordsFrom ser c lt ((m, t) :: ps)
        = blockOf ser (c + 1) t (if c = 0 then 0 else t - lt) m
            ++ '\n' :: '\n' :: recordsFrom ser (c + 1) t ps := by
      simp [recordsFrom, formatLogEntry, List.append_assoc]
    rw [hrec]
    have hsplit := splitNLNL_append (blockOf ser (c + 1) t (if c = 0 then 0 else t - lt) m)
      (recordsFrom ser (c + 1) t ps)
      (blockOf_noNLNL ser (c + 1) t (if c = 0 then 0 else t - lt) m hser ht hd)
      (blockOf_getLast ser (c + 1) t (if c = 0 then 0 else t - lt) m hser)
    have hall2 : ∀ p ∈ ps, serSafe (ser p.1) ∧ de (ser p.1) = some p.1 :=
      fun p hp => hall p (List.mem_cons_of_mem _ hp)
    have ihx := ih (c + 1) t hall2 ht hchain2
    simp only [parseLogFile] at ihx ⊢
    rw [hsplit, List.filter_cons_of_pos (blockOf_nonBlank ser (c + 1) t _ m),
      List.filterMap_cons_some
        (parseBlock_blockOf de ser (c + 1) t (if c = 0 then 0 else t - lt) m hser hde ht hd),
      ihx]
    have hcast : (((c + 1 : Nat) : Int)) = (c : Int) + 1 := by push_cast; ring
    simp [roundTripEntries, hcast]

-- ### Writer state evolution

theorem log_step {α : Type} (ser : α → List Char) (st : AgentLogger) (m : α) (t : Int)
    (content : List Char) (he : st.enabled = true) (hf : st.fileContent = some content) :
    AgentLogger.log ser st m t = { st with
      messageCount := st.messageCount + 1
      lastTimestamp := t
      fileContent := some (content ++ formatLogEntry ser (st.messageCount + 1) t
        (if st.messageCount = 0 then 0 else t - st.lastTimestamp) m) } := by
  simp [AgentLogger.log, he, hf]

theorem logAll_content {α : Type} (ser : α → List Char) :
    ∀ (ps : List (α × Int)) (st : AgentLogger) (content : List Char),
      st.enabled = true → st.fileContent = some content →
      (AgentLogger.logAll ser st ps).fileContent
        = some (content ++ recordsFrom ser st.messageCount st.lastTimestamp ps) := by
  intro ps
  induction ps with
  | nil =>
    intro st content he hf
    simp only [AgentLogger.logAll, List.foldl_nil, recordsFrom]
    rw [hf, List.append_nil]
  | cons p ps ih =>
    obtain ⟨m, t⟩ := p
    intro st content he hf
    have hstep := log_step ser st m t content he hf
    have hx := ih ({ st with
        messageCount := st.messageCount + 1
        lastTimestamp := t
        fileContent := some (content ++ formatLogEntry ser (st.messageCount + 1) t
          (if st.messageCount = 0 then 0 else t - st.lastTimestamp) m) })
      (content ++ formatLogEntry ser (st.messageCount + 1) t
        (if st.messageCount = 0 then 0 else t - st.lastTimestamp) m)
      (by simpa using he) (by simp)
    simp only [AgentLogger.logAll, List.foldl_cons] at hx ⊢
    rw [hstep]
    rw [hx]
    simp [recordsFrom, List.append_assoc]

-- ### Shape facts about the expected entry list

theorem rtE_length {α : Type} :
    ∀ (ps : List (α × Int)) (c : Nat) (lt : Int), (roundTripEntries c lt ps).length = ps.length := by
  intro ps
  induction ps with
  | nil => intro c lt; rfl
  | cons p ps ih =>
    obtain ⟨m, t⟩ := p
    intro c lt
    simp [roundTripEntries, ih]

theorem rtE_message_map {α : Type} :
    ∀ (ps : List (α × Int)) (c : Nat) (lt : Int),
      (roundTripEntries c lt ps).map LogEntry.message = ps.map Prod.fst := by
  intro ps
  induction ps with
  | nil => intro c lt; rfl
  | cons p ps ih =>
    obtain ⟨m, t⟩ := p
    intro c lt
    simp [roundTripEntries, ih]

theorem rtE_count_map {α : Type} :
    ∀ (ps : List (α × Int)) (c : Nat) (lt : Int),
      (roundTripEntries c lt ps).map LogEntry.count
        = (List.range ps.length).map (fun k => some (((c + k : Nat) : Int) + 1)) := by
  intro ps
  induction ps with
  | nil => intro c lt; rfl
  | cons p ps ih =>
    obtain ⟨m, t⟩ := p
    intro c lt
    simp only [roundTripEntries, List.map_cons, List.length_cons,
      List.range_succ_eq_map, List.map_map, Nat.add_zero]
    rw [ih (c + 1) t]
    congr 1
    apply List.map_congr_left
    intro k _
    simp only [Function.comp_apply, Nat.succ_eq_add_one]
    have e : c + 1 + k = c + (k + 1) := by omega
    rw [e]

/-- Claim C1: Round-trip.  For every sequence of N serialization-safe
(JSON-representable) events logged in order through `AgentLogger.log` with
non-decreasing non-negative wall-clock timestamps, parsing the produced file
with `LogPlayer.parseLogFile` yields exactly N entries whose message payloads
equal the original events in content and order, whose `count` fields are
`1..N`, and whose first entry has `timeDiff = 0`. -/
theorem agentLogger_logPlayer_roundTrip {α : Type} (ser : α → List Char)
    (de : List Char → Option α) (o : LoggerOptions) (dp : DateParts)
    (msgs : List α) (times : List Int)
    (hen : o.enabled ≠ some false)
    (hlen : msgs.length = times.length)
    (hmono : List.Chain (fun a b : Int => a ≤ b) 0 times)
    (hcodec : ∀ m ∈ msgs, serSafe (ser m) ∧ de (ser m) = some m) :
    ∃ content,
      (AgentLogger.logAll ser (mkAgentLogger o dp) (msgs.zip times)).fileContent = some content
      ∧ parseLogFile de content = roundTripEntries 0 0 (msgs.zip times)
      ∧ (parseLogFile de content).length = msgs.length
      ∧ (parseLogFile de content).map LogEntry.message = msgs
      ∧ (parseLogFile de content).map LogEntry.count
          = (List.range msgs.length).map (fun k : Nat => some ((k : Int) + 1))
      ∧ ∀ e0, (parseLogFile de content).head? = some e0 → e0.timeDiff = some 0 := by
  have he : (mkAgentLogger o dp).enabled = true := by simp [mkAgentLogger, hen]
  have hf : (mkAgentLogger o dp).fileContent = some [] := by simp [mkAgentLogger, hen]
  have hmc : (mkAgentLogger o dp).messageCount = 0 := by simp [mkAgentLogger, hen]
  have hlast : (mkAgentLogger o dp).lastTimestamp = 0 := by simp [mkAgentLogger, hen]
  have hcontent := logAll_content ser (msgs.zip times) (mkAgentLogger o dp) [] he hf
  rw [hmc, hlast, List.nil_append] at hcontent
  have hlez : times.length ≤ msgs.length := le_of_eq hlen.symm
  have hlez2 : msgs.length ≤ times.length := le_of_eq hlen
  have hsnd : (msgs.zip times).map Prod.snd = times := List.map_snd_zip msgs times hlez
  have hmemz : ∀ p ∈ msgs.zip times, serSafe (ser p.1) ∧ de (ser p.1) = some p.1 :=
    fun p hp => hcodec p.1 (List.of_mem_zip hp).1
  have hchainz : List.Chain (fun a b : Int => a ≤ b) 0 ((msgs.zip times).map Prod.snd) := by
    rw [hsnd]; exact hmono
  have hparse := parse_recordsFrom de ser (msgs.zip times) 0 0 hmemz (le_refl 0) hchainz
  have hzlen : (msgs.zip times).length = msgs.length := by
    rw [List.length_zip, hlen, Nat.min_self]
  refine ⟨recordsFrom ser 0 0 (msgs.zip times), hcontent, hparse, ?_, ?_, ?_, ?_⟩
  · rw [hparse, rtE_length, hzlen]
  · rw [hparse, rtE_message_map, List.map_fst_zip msgs times hlez2]
  · rw [hparse, rtE_count_map, hzlen]
    apply List.map_congr_left
    intro k _
    simp
  · intro e0 h0
    rw [hparse] at h0
    cases hz : msgs.zip times with
    | nil => rw [hz] at h0; exact absurd h0 (by simp [roundTripEntries])
    | cons q qs =>
      obtain ⟨m, t⟩ := q
      rw [hz] at h0
      simp only [roundTripEntries, List.head?_cons, Option.some_inj] at h0
      rw [← h0]
      simp

/-- Witness for C1 at a concrete input: two events 7 and 9 logged at times 100
and 250. -/
theorem agentLogger_logPlayer_roundTrip_witness :
    ∃ content,
      (AgentLogger.logAll natChars
        (mkAgentLogger ⟨none, ("m").data, none⟩ ⟨2025, 0, 2, 3, 4, 5, 1000⟩)
        (([7, 9] : List Nat).zip ([100, 250] : List Int))).fileContent = some content
      ∧ parseLogFile deNat content
          = roundTripEntries 0 0 (([7, 9] : List Nat).zip ([100, 250] : List Int))
      ∧ (parseLogFile deNat content).length = ([7, 9] : List Nat).length
      ∧ (parseLogFile deNat content).map LogEntry.message = [7, 9]
      ∧ (parseLogFile deNat content).map LogEntry.count
          = (List.range ([7, 9] : List Nat).length).map (fun k : Nat => some ((k : Int) + 1))
      ∧ ∀ e0, (parseLogFile deNat content).head? = some e0 → e0.timeDiff = some 0 :=
  agentLogger_logPlayer_roundTrip natChars deNat ⟨none, ("m").data, none⟩
    ⟨2025, 0, 2, 3, 4, 5, 1000⟩ [7, 9] [100, 250] (by decide) (by decide)
    (List.Chain.cons (by decide) (List.Chain.cons (by decide) List.Chain.nil)) (by decide)

-- ### Replay trace lemmas

theorem replayGo_nil {α ε : Type} (p : LogPlayer) (cb : LogEntry α → Nat → Nat → Except ε Unit)
    (total i : Nat) : replayGo p cb total [] i = ([], Except.ok ()) := rfl

theorem replayGo_cons_error {α ε : Type} (p : LogPlayer)
    (cb : LogEntry α → Nat → Nat → Except ε Unit) (total i : Nat) (e : LogEntry α)
    (rest : List (LogEntry α)) (err : ε) (h : cb e i total = Except.error err) :
    replayGo p cb total (e :: rest) i = ([REvent.deliver e i total], Except.error err) := by
  cases rest <;> simp [replayGo, h]

theorem replayGo_single_ok {α ε : Type} (p : LogPlayer)
    (cb : LogEntry α → Nat → Nat → Except ε Unit) (total i : Nat) (e : LogEntry α)
    (h : cb e i total = Except.ok ()) :
    replayGo p cb total [e] i = ([REvent.deliver e i total], Except.ok ()) := by
  simp [replayGo, h]

theorem replayGo_cons_ok {α ε : Type} (p : LogPlayer)
    (cb : LogEntry α → Nat → Nat → Except ε Unit) (total i : Nat) (e nxt : LogEntry α)
    (rest : List (LogEntry α)) (h : cb e i total = Except.ok ()) :
    replayGo p cb total (e :: nxt :: rest) i
      = (REvent.deliver e i total
          :: REvent.sleep (calculateDelay p e nxt)
          :: (replayGo p cb total (nxt :: rest) (i + 1)).1,
        (replayGo p cb total (nxt :: rest) (i + 1)).2) := by
  simp [replayGo, h]

theorem deliversOf_nil {α : Type} : deliversOf ([] : List (REvent α)) = [] := rfl

theorem deliversOf_deliver {α : Type} (e : LogEntry α) (i t : Nat) (tr : List (REvent α)) :
    deliversOf (REvent.deliver e i t :: tr) = (e, i, t) :: deliversOf tr := by
  simp [deliversOf]

theorem deliversOf_sleep {α : Type} (d : Option ℚ) (tr : List (REvent α)) :
    deliversOf (REvent.sleep d :: tr) = deliversOf tr := by
  simp [deliversOf]

theorem indexedFrom_length {α : Type} (total : Nat) :
    ∀ (l : List (LogEntry α)) (i : Nat), (indexedFrom total l i).length = l.length := by
  intro l
  induction l with
  | nil => intro i; rfl
  | cons e rest ih => intro i; simp [indexedFrom, ih]

theorem replayGo_all_ok {α ε : Type} (p : LogPlayer)
    (cb : LogEntry α → Nat → Nat → Except ε Unit) (total : Nat)
    (hok : ∀ e i t, cb e i t = Except.ok ()) :
    ∀ (rest : List (LogEntry α)) (i : Nat),
      replayGo p cb total rest i = (claimTraceGo p total rest i, Except.ok ()) := by
  intro rest
  induction rest with
  | nil => intro i; rfl
  | cons e rest ih =>
    intro i
    cases rest with
    | nil =>
      rw [replayGo_single_ok p cb total i e (hok e i total)]
      rfl
    | cons nxt rest2 =>
      rw [replayGo_cons_ok p cb total i e nxt rest2 (hok e i total), ih (i + 1)]
      simp [claimTraceGo, calculateDelay]

theorem deliversOf_claimTrace {α : Type} (p : LogPlayer) (total : Nat) :
    ∀ (rest : List (LogEntry α)) (i : Nat),
      deliversOf (claimTraceGo p total rest i) = indexedFrom total rest i := by
  intro rest
  induction rest with
  | nil => intro i; rfl
  | cons e rest ih =>
    intro i
    cases rest with
    | nil => simp [claimTraceGo, indexedFrom, deliversOf]
    | cons nxt rest2 =>
      show deliversOf (REvent.deliver e i total :: REvent.sleep _ :: claimTraceGo p total _ _)
        = indexedFrom total (e :: nxt :: rest2) i
      rw [deliversOf_deliver, deliversOf_sleep, ih (i + 1)]
      rfl

theorem replayGo_delivers_prefix {α ε : Type} (p : LogPlayer)
    (cb : LogEntry α → Nat → Nat → Except ε Unit) (total : Nat) :
    ∀ (rest : List (LogEntry α)) (i : Nat),
      ∃ n, n ≤ rest.length
        ∧ deliversOf (replayGo p cb total rest i).1 = indexedFrom total (rest.take n) i := by
  intro rest
  induction rest with
  | nil => intro i; exact ⟨0, by simp, rfl⟩
  | cons e rest ih =>
    intro i
    cases hcb : cb e i total with
    | error err =>
      refine ⟨1, by simp, ?_⟩
      rw [replayGo_cons_error p cb total i e rest err hcb]
      simp [deliversOf_deliver, deliversOf_nil, indexedFrom]
    | ok u =>
      obtain ⟨⟩ := u
      cases rest with
      | nil =>
        refine ⟨1, by simp, ?_⟩
        rw [replayGo_single_ok p cb total i e hcb]
        simp [deliversOf_deliver, deliversOf_nil, indexedFrom]
      | cons nxt rest2 =>
        obtain ⟨n, hn, hdel⟩ := ih (i + 1)
        refine ⟨n + 1, by simpa using hn, ?_⟩
        rw [replayGo_cons_ok p cb total i e nxt rest2 hcb]
        rw [deliversOf_deliver, deliversOf_sleep, hdel]
        rfl

theorem replayGo_error {α ε : Type} (p : LogPlayer)
    (cb : LogEntry α → Nat → Nat → Except ε Unit) (total : Nat) :
    ∀ (rest : List (LogEntry α)) (i k : Nat) (err : ε),
      k < rest.length →
      (∀ j e, j < k → rest[j]? = some e → cb e (i + j) total = Except.ok ()) →
      (∀ e, rest[k]? = some e → cb e (i + k) total = Except.error err) →
      (replayGo p cb total rest i).2 = Except.error err
      ∧ deliversOf (replayGo p cb total rest i).1
          = indexedFrom total (rest.take (k + 1)) i := by
  intro rest
  induction rest with
  | nil =>
    intro i k err hk _ _
    exact absurd hk (by simp)
  | cons e rest ih =>
    intro i k err hk hok herr
    cases k with
    | zero =>
      have h0 : cb e i total = Except.error err := by
        have := herr e (by simp)
        simpa using this
      rw [replayGo_cons_error p cb total i e rest err h0]
      refine ⟨rfl, ?_⟩
      simp [deliversOf_deliver, deliversOf_nil, indexedFrom]
    | succ k2 =>
      have h0 : cb e i total = Except.ok () := by
        have := hok 0 e (by omega) (by simp)
        simpa using this
      cases rest with
      | nil => exact absurd hk (by simp)
      | cons nxt rest2 =>
        have hok2 : ∀ j e2, j < k2 → (nxt :: rest2)[j]? = some e2
            → cb e2 (i + 1 + j) total = Except.ok () := by
          intro j e2 hj hje
          have := hok (j + 1) e2 (by omega) (by simpa using hje)
          have harith : i + (j + 1) = i + 1 + j := by omega
          rwa [harith] at this
        have herr2 : ∀ e2, (nxt :: rest2)[k2]? = some e2
            → cb e2 (i + 1 + k2) total = Except.error err := by
          intro e2 hje
          have := herr e2 (by simpa using hje)
          have harith : i + (k2 + 1) = i + 1 + k2 := by omega
          rwa [harith] at this
        obtain ⟨hres, hdel⟩ := ih (i + 1) k2 err (by simpa using hk) hok2 herr2
        rw [replayGo_cons_ok p cb total i e nxt rest2 h0]
        refine ⟨hres, ?_⟩
        rw [deliversOf_deliver, deliversOf_sleep, hdel]
        rfl

/-- Claim C2: Inter-entry delay.  Over any entry list, the trace of
`LogPlayer.replay` equals the specification trace: one wait between
delivering entry `i` and entry `i+1` and after no other entry — in particular
none after the last — whose duration is `entries[i+1].timeDiff / speed` in
realtime mode and `fixedInterval / speed` in fixed mode, independent of the
recorded values. -/
theorem replay_interEntry_delays {α ε : Type} (p : LogPlayer) (entries : List (LogEntry α))
    (cb : LogEntry α → Nat → Nat → Except ε Unit)
    (hok : ∀ e i t, cb e i t = Except.ok ()) :
    (replayEntries p entries cb).1 = claimTraceGo p entries.length entries 0 := by
  rw [replayEntries, replayGo_all_ok p cb entries.length hok entries 0]

/-- Witness for C2 at a concrete five-entry log in realtime mode at speed 2. -/
theorem replay_interEntry_delays_witness :
    (replayEntries ⟨[], PlayMode.realtime, 1000, 2⟩ fiveEntries okCb).1
      = claimTraceGo ⟨[], PlayMode.realtime, 1000, 2⟩ fiveEntries.length fiveEntries 0 :=
  replay_interEntry_delays ⟨[], PlayMode.realtime, 1000, 2⟩ fiveEntries okCb
    (fun _ _ _ => rfl)

/-- Counterexample to C3 as stated: `LogPlayer.replay` has no cancellation
input at all — its behaviour is a total function of the entries and the
callback — so a replay of 5 entries with a succeeding callback always performs
exactly 5 deliveries and completes; no execution delivers only 2. -/
theorem replay_cancellation_counterexample :
    (deliversOf (replayEntries ⟨[], PlayMode.fixed, 100, 1⟩ fiveEntries okCb).1).length = 5
    ∧ (replayEntries ⟨[], PlayMode.fixed, 100, 1⟩ fiveEntries okCb).2 = Except.ok ()
    ∧ (deliversOf (replayEntries ⟨[], PlayMode.fixed, 100, 1⟩ fiveEntries okCb).1).length ≠ 2 :=
  ⟨by decide, rfl, by decide⟩

/-- Claim C3 amended: the source scheduler offers no cancellation: once
`replay` starts, nothing can resolve an inter-entry wait early or stop
delivery, and with a succeeding callback every parsed entry is delivered and
the call resolves cleanly. -/
theorem replay_no_cancellation {α ε : Type} (p : LogPlayer) (entries : List (LogEntry α))
    (cb : LogEntry α → Nat → Nat → Except ε Unit)
    (hok : ∀ e i t, cb e i t = Except.ok ()) :
    (replayEntries p entries cb).2 = Except.ok ()
    ∧ (deliversOf (replayEntries p entries cb).1).length = entries.length := by
  rw [replayEntries, replayGo_all_ok p cb entries.length hok entries 0]
  constructor
  · rfl
  · show (deliversOf (claimTraceGo p entries.length entries 0)).length = entries.length
    rw [deliversOf_claimTrace, indexedFrom_length]

/-- Witness for the amended C3 at a concrete five-entry log. -/
theorem replay_no_cancellation_witness :
    (replayEntries ⟨[], PlayMode.realtime, 50, 1⟩ fiveEntries okCb).2 = Except.ok ()
    ∧ (deliversOf (replayEntries ⟨[], PlayMode.realtime, 50, 1⟩ fiveEntries okCb).1).length
        = fiveEntries.length :=
  replay_no_cancellation ⟨[], PlayMode.realtime, 50, 1⟩ fiveEntries okCb (fun _ _ _ => rfl)

/-- Claim C6: Sequential delivery with error stop.  The deliveries of any
replay are an ascending-indexed prefix of the entry list (each callback fully
awaited before the next); and when the callback first rejects at index `k`,
the error propagates out of `replay` and exactly the entries at indexes
`0..k` were delivered. -/
theorem replay_sequential_error_stop {α ε : Type} (p : LogPlayer)
    (entries : List (LogEntry α)) (cb : LogEntry α → Nat → Nat → Except ε Unit) :
    (∃ n, n ≤ entries.length
      ∧ deliversOf (replayEntries p entries cb).1
          = indexedFrom entries.length (entries.take n) 0)
    ∧ ∀ k err, k < entries.length →
        (∀ j e, j < k → entries[j]? = some e → cb e j entries.length = Except.ok ()) →
        (∀ e, entries[k]? = some e → cb e k entries.length = Except.error err) →
        (replayEntries p entries cb).2 = Except.error err
        ∧ deliversOf (replayEntries p entries cb).1
            = indexedFrom entries.length (entries.take (k + 1)) 0 := by
  constructor
  · exact replayGo_delivers_prefix p cb entries.length entries 0
  · intro k err hk hok herr
    have hok0 : ∀ j e, j < k → entries[j]? = some e
        → cb e (0 + j) entries.length = Except.ok () := by
      intro j e hj hje
      simpa using hok j e hj hje
    have herr0 : ∀ e, entries[k]? = some e
        → cb e (0 + k) entries.length = Except.error err := by
      intro e hje
      simpa using herr e hje
    exact replayGo_error p cb entries.length entries 0 k err hk hok0 herr0

/-- Witness for C6 at a concrete five-entry log with a callback that rejects
from index 1 on: the error propagates and exactly entries 0 and 1 are
delivered. -/
theorem replay_sequential_error_stop_witness :
    (∃ n, n ≤ fiveEntries.length
      ∧ deliversOf (replayEntries ⟨[], PlayMode.fixed, 100, 1⟩ fiveEntries failAt1).1
          = indexedFrom fiveEntries.length (fiveEntries.take n) 0)
    ∧ ((replayEntries ⟨[], PlayMode.fixed, 100, 1⟩ fiveEntries failAt1).2 = Except.error ()
      ∧ deliversOf (replayEntries ⟨[], PlayMode.fixed, 100, 1⟩ fiveEntries failAt1).1
          = indexedFrom fiveEntries.length (fiveEntries.take 2) 0) :=
  ⟨(replay_sequential_error_stop ⟨[], PlayMode.fixed, 100, 1⟩ fiveEntries failAt1).1,
   (replay_sequential_error_stop ⟨[], PlayMode.fixed, 100, 1⟩ fiveEntries failAt1).2 1 ()
     (by decide)
     (fun j e hj _ => by
       have hj0 : j = 0 := by omega
       subst hj0
       rfl)
     (fun e _ => rfl)⟩

/-- Counterexample to C4 as stated: a block whose header splits into exactly
three hyphen-separated fields that are NOT integers is not skipped — the code
only checks the field count, `parseInt` yields `NaN` and the entry is kept
with `NaN` metadata.  `"a-b-c\n5\n\n"` parses to one entry, not zero. -/
theorem parse_header_nan_counterexample :
    parseLogFile deNat (("a-b-c\n5\n\n").data) = [⟨none, none, none, 5⟩]
    ∧ parseLogFile deNat (("a-b-c\n5\n\n").data) ≠ [] := by
  exact ⟨by decide, by decide⟩

/-- Claim C4 amended: `parseLogFile` never throws (it is a total function);
a block with fewer than two lines, a block whose first line does not split
into exactly three hyphen-separated fields, and a block whose payload the
JSON parser rejects are each skipped with a warning (`parseBlock` returns
`none`), while a three-field header with non-integer fields produces an
entry with `NaN` metadata; in particular one corrupted block sandwiched
between two parseable blocks yields exactly the two valid entries. -/
theorem parse_malformed_tolerance {α : Type} (de : List Char → Option α)
    (b1 bad b3 : List Char) (e1 e3 : LogEntry α)
    (hb1 : noNLNL b1 = true) (hl1 : b1.getLast? ≠ some '\n') (hnb1 : nonBlank b1 = true)
    (hbad : noNLNL bad = true) (hlbad : bad.getLast? ≠ some '\n')
    (hb3 : noNLNL b3 = true) (hnb3 : nonBlank b3 = true)
    (hp1 : parseBlock de b1 = some e1)
    (hpbad : parseBlock de bad = none)
    (hp3 : parseBlock de b3 = some e3) :
    parseLogFile de (b1 ++ '\n' :: '\n' :: (bad ++ '\n' :: '\n' :: b3)) = [e1, e3] := by
  simp only [parseLogFile]
  rw [splitNLNL_append b1 _ hb1 hl1, splitNLNL_append bad _ hbad hlbad,
    splitNLNL_no_sep b3 hb3]
  cases hnb : nonBlank bad <;>
    simp [List.filter_cons, List.filterMap_cons, hnb1, hnb3, hnb, hp1, hpbad, hp3]

/-- Witness for the amended C4: a corrupted middle block between two valid
blocks yields exactly the two valid entries. -/
theorem parse_malformed_tolerance_witness :
    parseLogFile deNat ((("1-100-0\n7").data) ++ '\n' :: '\n'
        :: ((("2-200-100\nbroken").data) ++ '\n' :: '\n' :: (("3-300-100\n9").data)))
      = [⟨some 1, some 100, some 0, 7⟩, ⟨some 3, some 300, some 100, 9⟩] :=
  parse_malformed_tolerance deNat (("1-100-0\n7").data) (("2-200-100\nbroken").data)
    (("3-300-100\n9").data) ⟨some 1, some 100, some 0, 7⟩ ⟨some 3, some 300, some 100, 9⟩
    (by decide) (by decide) (by decide) (by decide) (by decide) (by decide) (by decide)
    (by decide) (by decide) (by decide)

/-- Claim C5: Empty-log failure.  When the file parses to zero entries,
`LogPlayerSSEAdapter.start` fails with the empty-log error: it invokes
`onError` with it (and resolves) when an `onError` hook is supplied, rethrows
it otherwise, and never invokes `onStart` or `onMessage`. -/
theorem adapter_empty_log {α ε : Type} (p : LogPlayer) (de : List Char → Option α)
    (content : List Char) (onMessage : α → MsgMeta → Except ε Unit)
    (hasOnStart hasOnComplete hasOnError : Bool)
    (hempty : parseLogFile de content = []) :
    (hasOnError = true →
      adapterStart p de content onMessage hasOnStart hasOnComplete hasOnError
        = ([HookEvent.onErrorHook StartError.emptyLog], Except.ok ()))
    ∧ (hasOnError = false →
      adapterStart p de content onMessage hasOnStart hasOnComplete hasOnError
        = ([], Except.error StartError.emptyLog))
    ∧ ∀ ev ∈ (adapterStart p de content onMessage hasOnStart hasOnComplete hasOnError).1,
        (∀ s, ev ≠ HookEvent.onStartHook s) ∧ (∀ m meta, ev ≠ HookEvent.onMessageHook m meta) := by
  have hsum : getLogSummary de p.logFilePath content = none := by
    simp [getLogSummary, hempty]
  refine ⟨?_, ?_, ?_⟩
  · intro herr
    simp [adapterStart, hsum, herr]
  · intro herr
    simp [adapterStart, hsum, herr]
  · intro ev hev
    cases herr : hasOnError with
    | true =>
      simp only [adapterStart, hsum, herr, if_true] at hev
      simp only [List.mem_singleton] at hev
      subst hev
      exact ⟨fun s => by simp, fun m meta => by simp⟩
    | false =>
      simp only [adapterStart, hsum, herr] at hev
      simp at hev

/-- Witness for C5: an empty file with an `onError` hook produces exactly one
`onError` invocation carrying the empty-log error and a clean resolution. -/
theorem adapter_empty_log_witness :
    (true = true →
      adapterStart ⟨("p").data, PlayMode.realtime, 1000, 1⟩ deNat []
          (fun _ _ => (Except.ok () : Except Unit Unit)) true true true
        = ([HookEvent.onErrorHook StartError.emptyLog], Except.ok ()))
    ∧ (true = false →
      adapterStart ⟨("p").data, PlayMode.realtime, 1000, 1⟩ deNat []
          (fun _ _ => (Except.ok () : Except Unit Unit)) true true true
        = ([], Except.error StartError.emptyLog))
    ∧ ∀ ev ∈ (adapterStart ⟨("p").data, PlayMode.realtime, 1000, 1⟩ deNat []
          (fun _ _ => (Except.ok () : Except Unit Unit)) true true true).1,
        (∀ s, ev ≠ HookEvent.onStartHook s)
        ∧ (∀ m meta, ev ≠ HookEvent.onMessageHook m meta) :=
  adapter_empty_log ⟨("p").data, PlayMode.realtime, 1000, 1⟩ deNat []
    (fun _ _ => (Except.ok () : Except Unit Unit)) true true true (by decide)

/-- Counterexample to C7 as stated: at epoch 1000 on 2025-01-02 03:04:05 with
label `gpt/4o`, the produced file name uses hyphen- and colon-separated
date-time components (`2025-01-02_03:04:05`), not the claimed all-underscore
`YYYY_MM_DD_HH_MM_SS`; it contains `':'`, a character outside the safe class
`[A-Za-z0-9-_.]`, so the whole name is not filesystem-safe as claimed. -/
theorem logFileName_counterexample :
    logFileName ⟨2025, 0, 2, 3, 4, 5, 1000⟩ (("gpt/4o").data)
      = ("eko-log-1000-2025-01-02_03:04:05-gpt_4o.log").data
    ∧ logFileName ⟨2025, 0, 2, 3, 4, 5, 1000⟩ (("gpt/4o").data)
      ≠ claimedFileName ⟨2025, 0, 2, 3, 4, 5, 1000⟩ (("gpt/4o").data)
    ∧ ':' ∈ logFileName ⟨2025, 0, 2, 3, 4, 5, 1000⟩ (("gpt/4o").data)
    ∧ isSafeChar ':' = false := by
  refine ⟨by decide, by decide, by decide, by decide⟩

/-- Claim C7 amended: the file path recorded by an enabled `AgentLogger` is
`<dir>/eko-log-<epochMillis>-<YYYY-MM-DD_HH:MM:SS>-<sanitized-label>.log`,
where only the label is sanitized: every character of the sanitized label is
in `[A-Za-z0-9-_.]` (characters outside it are replaced by an underscore),
while the date-time part keeps its hyphens, colons and underscore. -/
theorem logFileName_amended (o : LoggerOptions) (d : DateParts)
    (hen : o.enabled ≠ some false) :
    (mkAgentLogger o d).logFilePath
      = some ((o.logDir.getD defaultLogDir) ++ '/' :: amendedFileName d o.modelName)
    ∧ ∀ c ∈ sanitizeModelName o.modelName, isSafeChar c = true := by
  constructor
  · simp [mkAgentLogger, hen, logFileName, amendedFileName, formatDateTime,
      List.append_assoc]
  · intro c hc
    simp only [sanitizeModelName, List.mem_map] at hc
    obtain ⟨a, _, ha⟩ := hc
    by_cases h : isSafeChar a = true
    · rw [← ha, if_pos h]
      exact h
    · rw [← ha, if_neg h]
      decide

/-- Witness for the amended C7 at a concrete date and label. -/
theorem logFileName_amended_witness :
    (mkAgentLogger ⟨some (("d").data), ("gpt/4o").data, none⟩
        ⟨2025, 0, 2, 3, 4, 5, 1000⟩).logFilePath
      = some (((some (("d").data) : Option (List Char)).getD defaultLogDir)
          ++ '/' :: amendedFileName ⟨2025, 0, 2, 3, 4, 5, 1000⟩ (("gpt/4o").data))
    ∧ ∀ c ∈ sanitizeModelName (("gpt/4o").data), isSafeChar c = true :=
  logFileName_amended ⟨some (("d").data), ("gpt/4o").data, none⟩
    ⟨2025, 0, 2, 3, 4, 5, 1000⟩ (by decide)

/-- Claim C8: Summary.  `getLogSummary` returns `none` exactly when the file
parses to zero entries; otherwise it returns the number of parsed entries,
the first entry's timestamp, the last entry's timestamp, and a duration equal
to the last timestamp minus the first (JS subtraction, NaN-propagating). -/
theorem getLogSummary_spec {α : Type} (de : List Char → Option α)
    (path content : List Char) :
    (getLogSummary de path content = none ↔ parseLogFile de content = [])
    ∧ ∀ e es, parseLogFile de content = e :: es →
        getLogSummary de path content
          = some ⟨path, (e :: es).length, e.timestamp, (es.getLastD e).timestamp,
              jsSub (es.getLastD e).timestamp e.timestamp⟩ := by
  constructor
  · cases hp : parseLogFile de content with
    | nil => simp [getLogSummary, hp]
    | cons e es => simp [getLogSummary, hp]
  · intro e es hp
    simp [getLogSummary, hp]

/-- Witness for C8 on a two-entry log file. -/
theorem getLogSummary_spec_witness :
    parseLogFile deNat (("1-100-0\n7\n\n2-250-150\n9\n\n").data)
      = [⟨some 1, some 100, some 0, 7⟩, ⟨some 2, some 250, some 150, 9⟩]
    ∧ getLogSummary deNat (("p").data) (("1-100-0\n7\n\n2-250-150\n9\n\n").data)
      = some ⟨("p").data,
          ((⟨some 1, some 100, some 0, 7⟩ : LogEntry Nat)
            :: [(⟨some 2, some 250, some 150, 9⟩ : LogEntry Nat)]).length,
          (⟨some 1, some 100, some 0, (7 : Nat)⟩ : LogEntry Nat).timestamp,
          (([(⟨some 2, some 250, some 150, 9⟩ : LogEntry Nat)]).getLastD
            ⟨some 1, some 100, some 0, 7⟩).timestamp,
          jsSub (([(⟨some 2, some 250, some 150, 9⟩ : LogEntry Nat)]).getLastD
              ⟨some 1, some 100, some 0, 7⟩).timestamp
            (⟨some 1, some 100, some 0, (7 : Nat)⟩ : LogEntry Nat).timestamp⟩ :=
  ⟨by decide,
   (getLogSummary_spec deNat (("p").data) (("1-100-0\n7\n\n2-250-150\n9\n\n").data)).2
     ⟨some 1, some 100, some 0, 7⟩ [⟨some 2, some 250, some 150, 9⟩] (by decide)⟩

/-- Claim C9: Disabled writer is a no-op.  An `AgentLogger` constructed with
`enabled = false` is unchanged by any number of `log` calls: no file content
exists, `getMessageCount` returns 0, `getLogFilePath` returns `none`, and
`close` resolves cleanly whatever the stream outcome would have been. -/
theorem disabled_logger_noop {α : Type} (ser : α → List Char) (dir : Option (List Char))
    (name : List Char) (d : DateParts) (ps : List (α × Int))
    (endRes : Except (List Char) Unit) :
    AgentLogger.logAll ser (mkAgentLogger ⟨dir, name, some false⟩ d) ps
      = mkAgentLogger ⟨dir, name, some false⟩ d
    ∧ AgentLogger.getMessageCount
        (AgentLogger.logAll ser (mkAgentLogger ⟨dir, name, some false⟩ d) ps) = 0
    ∧ AgentLogger.getLogFilePath
        (AgentLogger.logAll ser (mkAgentLogger ⟨dir, name, some false⟩ d) ps) = none
    ∧ (AgentLogger.logAll ser (mkAgentLogger ⟨dir, name, some false⟩ d) ps).fileContent = none
    ∧ AgentLogger.close
        (AgentLogger.logAll ser (mkAgentLogger ⟨dir, name, some false⟩ d) ps) endRes
      = Except.ok () := by
  have hdis : (mkAgentLogger ⟨dir, name, some false⟩ d).enabled = false := by
    simp [mkAgentLogger]
  have hlog : ∀ (m : α) (t : Int),
      AgentLogger.log ser (mkAgentLogger ⟨dir, name, some false⟩ d) m t
        = mkAgentLogger ⟨dir, name, some false⟩ d := by
    intro m t
    simp [AgentLogger.log, hdis]
  have hall : AgentLogger.logAll ser (mkAgentLogger ⟨dir, name, some false⟩ d) ps
      = mkAgentLogger ⟨dir, name, some false⟩ d := by
    induction ps with
    | nil => rfl
    | cons p ps ih =>
      simp only [AgentLogger.logAll, List.foldl_cons] at ih ⊢
      rw [hlog p.1 p.2]
      exact ih
  refine ⟨hall, ?_, ?_, ?_, ?_⟩ <;> rw [hall]
  · rfl
  · simp [AgentLogger.getLogFilePath, mkAgentLogger]
  · simp [mkAgentLogger]
  · simp [AgentLogger.close, mkAgentLogger]

/-- Claim C10: Implicit zero-coercion of playback options.  The `LogPlayer`
constructor maps a `speed` of 0 (or an absent one) to the default 1.0 and a
`fixedInterval` of 0 (or an absent one) to the default 1000, because JS `||`
treats 0 as falsy; hence no options can produce a zero effective fixed
interval, even though the development configuration allows a minimum
`fixedInterval` of 0. -/
theorem logPlayer_zero_coercion (o : LogPlayerOptions) :
    ((o.speed = none ∨ o.speed = some 0) → (mkLogPlayer o).speed = 1)
    ∧ ((o.fixedInterval = none ∨ o.fixedInterval = some 0)
        → (mkLogPlayer o).fixedInterval = 1000)
    ∧ (mkLogPlayer o).fixedInterval ≠ 0
    ∧ (getFixedIntervalConfig true).min = 0 := by
  refine ⟨?_, ?_, ?_, rfl⟩
  · rintro (h | h) <;> simp [mkLogPlayer, jsOrQ, h]
  · rintro (h | h) <;> simp [mkLogPlayer, jsOrQ, h]
  · show jsOrQ o.fixedInterval 1000 ≠ 0
    cases h : o.fixedInterval with
    | none => simp [jsOrQ]
    | some x =>
      by_cases hx : x = 0
      · simp [jsOrQ, hx]
      · simp [jsOrQ, hx]

/-- Witness for C10: options with `speed = 0` and `fixedInterval = 0`. -/
theorem logPlayer_zero_coercion_witness :
    (mkLogPlayer ⟨[], none, some 0, some 0⟩).speed = 1
    ∧ (mkLogPlayer ⟨[], none, some 0, some 0⟩).fixedInterval = 1000
    ∧ (mkLogPlayer ⟨[], none, some 0, some 0⟩).fixedInterval ≠ 0
    ∧ (getFixedIntervalConfig true).min = 0 :=
  ⟨(logPlayer_zero_coercion ⟨[], none, some 0, some 0⟩).1 (Or.inr rfl),
   (logPlayer_zero_coercion ⟨[], none, some 0, some 0⟩).2.1 (Or.inr rfl),
   (logPlayer_zero_coercion ⟨[], none, some 0, some 0⟩).2.2.1,
   (logPlayer_zero_coercion ⟨[], none, some 0, some 0⟩).2.2.2⟩
